import Mathlib

/-!
Verification of the WaveNotes note post-processing and MIDI export core.

Shallow embedding of `src/app/transcription/postprocess.py`,
`src/app/midi/export_midi.py`, `src/app/ui/main_window_bu.py`
(`_export_multitrack_midi`), `src/app/midi/preview_synth.py` and
`src/app/midi/writer.py`.  Python floats are modelled as rationals,
Python ints as `Int`, and Python's stable `sorted` as `List.insertionSort`
(which is stable with the same insertion behaviour).
-/

attribute [local semireducible] Rat.add Rat.mul Rat.inv Rat.sub Rat.ofScientific

namespace WaveNotes

/-- Python 3 `round` on a real number: round-half-to-even (banker's rounding). -/
def pyRound (x : Rat) : Int :=
  let f := ⌊x⌋
  let r := x - (f : Rat)
  if r < 1/2 then f
  else if 1/2 < r then f + 1
  else if f % 2 = 0 then f else f + 1

/-- Python `int(...)` applied to a float: truncation toward zero. -/
def ratTrunc (x : Rat) : Int := if x < 0 then ⌈x⌉ else ⌊x⌋

/-- `NoteEvent` from `src/app/state.py`: start/end in seconds, MIDI pitch, velocity. -/
structure NoteEvent where
  start_sec : Rat
  end_sec : Rat
  midi_pitch : Int
  velocity : Int
deriving DecidableEq, Repr

/-- `Settings` from `src/app/state.py` (field order as in the dataclass). -/
structure Settings where
  min_note_ms : Int
  min_velocity : Int
  merge_gap_ms : Int
  pitch_min : Int
  pitch_max : Int
  max_polyphony : Int
  velocity : Int
  quantize : Bool
  quantize_bpm : Int
  quantize_grid : String
  quantize_strength : Int
deriving Repr

/-- Python tuple key `(n.start_sec, n.midi_pitch)` compared ascending. -/
def leStartPitch (a b : NoteEvent) : Prop :=
  a.start_sec < b.start_sec ∨
    (a.start_sec = b.start_sec ∧ a.midi_pitch ≤ b.midi_pitch)

instance decLeStartPitch : DecidableRel leStartPitch := fun a b => by
  unfold leStartPitch; infer_instance

instance : IsTotal NoteEvent leStartPitch := by
  constructor
  intro a b
  rcases lt_trichotomy a.start_sec b.start_sec with h | h | h
  · exact Or.inl (Or.inl h)
  · rcases le_total a.midi_pitch b.midi_pitch with hp | hp
    · exact Or.inl (Or.inr ⟨h, hp⟩)
    · exact Or.inr (Or.inr ⟨h.symm, hp⟩)
  · exact Or.inr (Or.inl h)

instance : IsTrans NoteEvent leStartPitch := by
  constructor
  intro a b c hab hbc
  rcases hab with h1 | ⟨h1, h1p⟩
  · rcases hbc with h2 | ⟨h2, _⟩
    · exact Or.inl (h1.trans h2)
    · exact Or.inl (h2 ▸ h1)
  · rcases hbc with h2 | ⟨h2, h2p⟩
    · exact Or.inl (h1 ▸ h2)
    · exact Or.inr ⟨h1.trans h2, h1p.trans h2p⟩

/-- Python tuple key `(n.midi_pitch, n.start_sec, n.end_sec)` compared ascending. -/
def lePitchStartEnd (a b : NoteEvent) : Prop :=
  a.midi_pitch < b.midi_pitch ∨
    (a.midi_pitch = b.midi_pitch ∧
      (a.start_sec < b.start_sec ∨
        (a.start_sec = b.start_sec ∧ a.end_sec ≤ b.end_sec)))

instance decLePitchStartEnd : DecidableRel lePitchStartEnd := fun a b => by
  unfold lePitchStartEnd; infer_instance

/-- Python tuple key `(n.start_sec, -n.velocity)` compared ascending. -/
def leCapKey (a b : NoteEvent) : Prop :=
  a.start_sec < b.start_sec ∨
    (a.start_sec = b.start_sec ∧ b.velocity ≤ a.velocity)

instance decLeCapKey : DecidableRel leCapKey := fun a b => by
  unfold leCapKey; infer_instance

/-! ### Merge-gap stage (`_merge_gap` in postprocess.py) -/

/-- The nested `while` loops of `_merge_gap` in one structural scan:
`(st, en, p, vel)` is the current running note; the next note is absorbed
into it exactly when it has the same pitch and starts within `en + gap`
(the inner loop), and otherwise the running note is emitted and the next
note starts a new run (the outer loop advancing `i = j`). -/
def mergeScan (gap : Rat) (st en : Rat) (p vel : Int) :
    List NoteEvent → List NoteEvent
  | [] => [⟨st, en, p, vel⟩]
  | nxt :: rest =>
    if nxt.midi_pitch = p ∧ nxt.start_sec ≤ en + gap then
      mergeScan gap st (max en nxt.end_sec) p (max vel nxt.velocity) rest
    else
      ⟨st, en, p, vel⟩ ::
        mergeScan gap nxt.start_sec nxt.end_sec nxt.midi_pitch nxt.velocity rest

/-- The outer `while` loop of `_merge_gap` over the pitch-sorted list. -/
def mergeLoop (gap : Rat) : List NoteEvent → List NoteEvent
  | [] => []
  | cur :: rest => mergeScan gap cur.start_sec cur.end_sec cur.midi_pitch cur.velocity rest

/-- `_merge_gap(notes, gap_sec)` from postprocess.py. -/
def mergeGap (notes : List NoteEvent) (gap : Rat) : List NoteEvent :=
  if gap ≤ 0 then List.insertionSort leStartPitch notes
  else
    List.insertionSort leStartPitch
      (mergeLoop gap (List.insertionSort lePitchStartEnd notes))

/-! ### Polyphony cap (`_cap_polyphony` in postprocess.py) -/

/-- The `prune` closure: keep only active notes with `end_sec > t`. -/
def pruneActive (active : List NoteEvent) (t : Rat) : List NoteEvent :=
  active.filter (fun a => t < a.end_sec)

/-- Python `min(active, key=lambda x: x.velocity)`: first element with the
minimal velocity, written as a left scan with the current minimum carried. -/
def minByVel (cur : NoteEvent) : List NoteEvent → NoteEvent
  | [] => cur
  | x :: xs => if x.velocity < cur.velocity then minByVel x xs else minByVel cur xs

/-- One iteration of the `for n in notes` loop of `_cap_polyphony`.
State is `(active, kept)`. -/
def capStep (maxp : Int) (acc : List NoteEvent × List NoteEvent) (n : NoteEvent) :
    List NoteEvent × List NoteEvent :=
  let active := pruneActive acc.1 n.start_sec ++ [n]
  let kept := acc.2 ++ [n]
  if maxp < (active.length : Int) then
    let worst := match active with
      | [] => n
      | x :: xs => minByVel x xs
    (active.erase worst, kept.erase worst)
  else (active, kept)

/-- `_cap_polyphony(notes, max_polyphony)` from postprocess.py. -/
def capPolyphony (notes : List NoteEvent) (maxp : Int) : List NoteEvent :=
  if maxp ≤ 0 then List.insertionSort leStartPitch notes
  else
    List.insertionSort leStartPitch
      (((List.insertionSort leCapKey notes).foldl (capStep maxp) ([], [])).2)

/-! ### Quantize stage (`_grid_seconds`, `_quantize_time`, `_apply_quantize`) -/

/-- Split a character list at every occurrence of `c`
(the behaviour of Python `str.split` with a one-character separator). -/
def splitOnChar (c : Char) : List Char → List (List Char)
  | [] => [[]]
  | x :: xs =>
    let r := splitOnChar c xs
    if x = c then [] :: r
    else
      match r with
      | [] => [[x]]
      | y :: ys => (x :: y) :: ys

/-- Python `int(...)` on a plain digit string with optional sign
(the only strings reaching it here are grid denominators like `"16"`);
`none` models the `ValueError` caught by `_grid_seconds`. -/
def parseIntChars : List Char → Option Int
  | [] => none
  | '-' :: rest =>
    (rest.foldl (fun acc c => do
      let a ← acc
      if c.isDigit then some (a * 10 + (c.toNat - 48 : Int)) else none)
      (if rest.isEmpty then none else some 0)).map (fun k => -k)
  | l =>
    l.foldl (fun acc c => do
      let a ← acc
      if c.isDigit then some (a * 10 + (c.toNat - 48 : Int)) else none)
      (some 0)

/-- `int(str(grid_str).split("/")[1])` with the `except` fallback to 16. -/
def parseDenom (s : String) : Int :=
  match (splitOnChar '/' s.toList).drop 1 with
  | [] => 16
  | d :: _ =>
    match parseIntChars d with
    | some k => k
    | none => 16

/-- `_grid_seconds(bpm, grid_str)` from postprocess.py. -/
def gridSeconds (bpm : Int) (gridStr : String) : Rat :=
  let b := max 1 bpm
  let quarter : Rat := 60 / (b : Rat)
  let denom := max 1 (parseDenom gridStr)
  quarter * (4 / (denom : Rat))

/-- `_quantize_time(t, grid, strength)` from postprocess.py. -/
def quantizeTime (t grid strength : Rat) : Rat :=
  if grid ≤ 0 then t
  else t + ((pyRound (t / grid) : Rat) * grid - t) * strength

/-- The body of the `for n in notes` loop of `_apply_quantize`. -/
def quantizeNote (grid strength minDur : Rat) (n : NoteEvent) : NoteEvent :=
  let stq := quantizeTime n.start_sec grid strength
  let enq := quantizeTime n.end_sec grid strength
  let st2 := if enq < stq then enq else stq
  let en2 := if enq < stq then stq else enq
  let en3 := if en2 - st2 < minDur then st2 + minDur else en2
  ⟨st2, en3, n.midi_pitch, n.velocity⟩

/-- `strength = max(0.0, min(1.0, s.quantize_strength / 100.0))`. -/
def strength01 (s : Settings) : Rat :=
  max 0 (min 1 ((s.quantize_strength : Rat) / 100))

/-- `min_dur = max(0.001, s.min_note_ms / 1000.0)` inside `_apply_quantize`. -/
def minDurQ (s : Settings) : Rat :=
  max (1/1000) ((s.min_note_ms : Rat) / 1000)

/-- `_apply_quantize(notes, s)` from postprocess.py. -/
def applyQuantize (notes : List NoteEvent) (s : Settings) : List NoteEvent :=
  let grid := gridSeconds s.quantize_bpm s.quantize_grid
  if strength01 s ≤ 0 then notes
  else notes.map (quantizeNote grid (strength01 s) (minDurQ s))

/-! ### Full pipeline (`apply_tweaks` in postprocess.py) -/

/-- The keep-condition of the filter loop in `apply_tweaks`
(the loop `continue`s on the negation of each conjunct). -/
def keepNote (pmin pmax minVel : Int) (minDur : Rat) (n : NoteEvent) : Bool :=
  decide (pmin ≤ n.midi_pitch) && decide (n.midi_pitch ≤ pmax) &&
  decide (n.start_sec < n.end_sec) && decide (minDur ≤ n.end_sec - n.start_sec) &&
  decide (minVel ≤ n.velocity)

/-- `v = max(1, min(127, int(s.velocity)))`: the final velocity override. -/
def velClamp (v : Int) : Int := max 1 (min 127 v)

/-- `apply_tweaks(raw_notes, s)` from postprocess.py. -/
def applyTweaks (raw : List NoteEvent) (s : Settings) : List NoteEvent :=
  let minDur := max 0 ((s.min_note_ms : Rat) / 1000)
  let filtered := raw.filter (keepNote s.pitch_min s.pitch_max s.min_velocity minDur)
  let merged := mergeGap filtered ((s.merge_gap_ms : Rat) / 1000)
  let capped := capPolyphony merged s.max_polyphony
  let quantized := if s.quantize then applyQuantize capped s else capped
  let v := velClamp s.velocity
  List.insertionSort leStartPitch
    (quantized.map (fun n => ⟨n.start_sec, n.end_sec, n.midi_pitch, v⟩))

/-! ### Single-track MIDI serializer (`export_midi` in src/app/midi/export_midi.py) -/

/-- One event of the single-track exporter: the Python tuple
`(t_sec, priority, (kind, pitch, vel))` with priority `0` for note-on and
`-1` for note-off. -/
structure MidiEv where
  time : Rat
  prio : Int
  isOn : Bool
  pitch : Int
  vel : Int
deriving DecidableEq, Repr

/-- The event list built by `export_midi`: per note, a note-on at `start_sec`
(priority 0) and a note-off at `end_sec` (priority -1), in note order. -/
def noteEvents (notes : List NoteEvent) : List MidiEv :=
  (notes.map (fun n =>
    [MidiEv.mk n.start_sec 0 true n.midi_pitch n.velocity,
     MidiEv.mk n.end_sec (-1) false n.midi_pitch 0])).flatten

/-- `events.sort(key=lambda x: (x[0], x[1]))`: seconds, then priority. -/
def leEv (a b : MidiEv) : Prop :=
  a.time < b.time ∨ (a.time = b.time ∧ a.prio ≤ b.prio)

instance decLeEv : DecidableRel leEv := fun a b => by
  unfold leEv; infer_instance

/-- `sec_to_ticks` inside `export_midi`: `int(round(sec / (60/bpm) * 480))`
with `bpm = max(1, tempo_bpm)` and `ticks_per_beat = 480`. -/
def secToTicks (bpm : Int) (sec : Rat) : Int :=
  let b := max 1 bpm
  pyRound (sec / (60 / (b : Rat)) * 480)

/-- The delta-encoding loop of `export_midi`: emitted messages are
`(isOn, pitch, velocity, delta)` with `delta = max(0, tick - last_tick)`. -/
def encodeTrack (bpm : Int) : Int → List MidiEv → List (Bool × Int × Int × Int)
  | _, [] => []
  | last, e :: es =>
    let tick := secToTicks bpm e.time
    let delta := max 0 (tick - last)
    (e.isOn, e.pitch, if e.isOn then e.vel else 0, delta) :: encodeTrack bpm tick es

/-- The full message stream of `export_midi` (tempo meta event omitted;
`last_tick` starts at 0). -/
def exportTrack (notes : List NoteEvent) (bpm : Int) : List (Bool × Int × Int × Int) :=
  encodeTrack bpm 0 (List.insertionSort leEv (noteEvents notes))

/-- Decode a delta-time message stream back to absolute ticks:
`(isOn, pitch, absolute tick)` per message. -/
def decodeTicks : Int → List (Bool × Int × Int × Int) → List (Bool × Int × Int)
  | _, [] => []
  | t, (isOn, p, _, d) :: rest =>
    (isOn, p, t + d) :: decodeTicks (t + d) rest

/-! ### Multi-track MIDI serializer
(`_export_multitrack_midi` in src/app/ui/main_window_bu.py) -/

/-- `mido.bpm2tempo(bpm)` = `int(round(60 * 1e6 / bpm))` (microseconds per beat). -/
def bpm2tempo (bpm : Int) : Int := pyRound (60000000 / (bpm : Rat))

/-- `ticks_per_sec = (ticks_per_beat * 1_000_000) / tempo` with `ticks_per_beat = 480`. -/
def mtTicksPerSec (bpm : Int) : Rat := (480 * 1000000 : Rat) / (bpm2tempo bpm : Rat)

/-- `sec_to_ticks` inside `_export_multitrack_midi`: `max(0, int(round(sec * ticks_per_sec)))`. -/
def mtSecToTicks (tps : Rat) (sec : Rat) : Int := max 0 (pyRound (sec * tps))

/-- One multi-track event: the Python tuple `(tick, is_on, pitch, vel)`. -/
structure MTEv where
  tick : Int
  isOn : Bool
  pitch : Int
  vel : Int
deriving DecidableEq, Repr

/-- The second sort component `not e[1]`: `False` (0) for note-on, `True` (1)
for note-off — so note-ON sorts first at an identical tick. -/
def mtPrio (e : MTEv) : Nat := if e.isOn then 0 else 1

/-- `events.sort(key=lambda e: (e[0], not e[1]))`. -/
def leMT (a b : MTEv) : Prop :=
  a.tick < b.tick ∨ (a.tick = b.tick ∧ mtPrio a ≤ mtPrio b)

instance decLeMT : DecidableRel leMT := fun a b => by
  unfold leMT; infer_instance

/-- The per-track event list of `_export_multitrack_midi`: per note an
on-event at the start tick and an off-event (velocity 0) at the end tick. -/
def mtEvents (notes : List NoteEvent) (bpm : Int) : List MTEv :=
  let tps := mtTicksPerSec bpm
  (notes.map (fun n =>
    [MTEv.mk (mtSecToTicks tps n.start_sec) true n.midi_pitch n.velocity,
     MTEv.mk (mtSecToTicks tps n.end_sec) false n.midi_pitch 0])).flatten

/-- The sorted per-track event list, exactly as it is then emitted
(delta-encoding preserves this order). -/
def mtSorted (notes : List NoteEvent) (bpm : Int) : List MTEv :=
  List.insertionSort leMT (mtEvents notes bpm)

/-- The claimed ordering property for a tick-annotated event stream:
no note-on message is ever followed by a note-off message at the same tick. -/
def OffBeforeOnAtSameTick (evs : List MTEv) : Prop :=
  List.Pairwise (fun a b => a.tick = b.tick → a.isOn = true → b.isOn = true) evs

instance decOffBeforeOn (evs : List MTEv) : Decidable (OffBeforeOnAtSameTick evs) := by
  unfold OffBeforeOnAtSameTick; infer_instance

/-! ### Preview synthesizer, empty-input branch
(`render_preview_wav` in src/app/midi/preview_synth.py) -/

/-- The `if not notes` branch of `render_preview_wav`: after
`sr = 44100 if sr <= 0 else int(sr)`, the function writes
`b"\x00\x00" * int(sr * 0.1)` — i.e. `int(sr * 0.1)` zero-valued 16-bit
mono samples — at frame rate `sr`.  Returns (frame rate, sample list). -/
def renderPreviewWavEmpty (sr : Int) : Int × List Int :=
  let sr2 := if sr ≤ 0 then 44100 else sr
  (sr2, List.replicate (ratTrunc ((sr2 : Rat) * (1/10))).toNat 0)

/-! ### pretty_midi writer (`write_midi` in src/app/midi/writer.py) -/

/-- The per-note sanitization inside `write_midi`'s loop. -/
def sanitizeNote (n : NoteEvent) : NoteEvent :=
  let start := max 0 n.start_sec
  let en := max (start + 1/1000) n.end_sec
  ⟨start, en, max 0 (min 127 n.midi_pitch), max 1 (min 127 n.velocity)⟩

/-- The note list actually appended to the pretty_midi instrument by `write_midi`. -/
def writeMidiNotes (notes : List NoteEvent) : List NoteEvent :=
  notes.map sanitizeNote

/-! ## Claim C10: the pretty_midi writer sanitizes every note -/

/-- C10: `write_midi` sanitizes every note before writing, for any input:
start is clamped to at least 0, end is forced to at least start + 0.001 s,
pitch is clamped into [0, 127] and velocity into [1, 127], so every written
note is well-formed even when the input violates the NoteEvent invariants. -/
theorem writeMidi_sanitizes (notes : List NoteEvent) :
    ∀ n ∈ writeMidiNotes notes,
      0 ≤ n.start_sec ∧ n.start_sec + 1/1000 ≤ n.end_sec ∧ n.start_sec < n.end_sec ∧
      0 ≤ n.midi_pitch ∧ n.midi_pitch ≤ 127 ∧ 1 ≤ n.velocity ∧ n.velocity ≤ 127 := by
  intro n hn
  simp only [writeMidiNotes, List.mem_map] at hn
  obtain ⟨m, _, rfl⟩ := hn
  simp only [sanitizeNote]
  refine ⟨le_max_left _ _, le_max_left _ _, ?_, le_max_left _ _, ?_, le_max_left _ _, ?_⟩
  · exact lt_of_lt_of_le (by linarith [le_max_left (0:Rat) m.start_sec]) (le_max_left _ _)
  · exact max_le (by norm_num) (min_le_left _ _)
  · exact max_le (by norm_num) (min_le_left _ _)

/-- Witness for C10 at the invariant-violating note (-5, -6, 300, 999). -/
theorem writeMidi_sanitizes_witness :
    (NoteEvent.mk 0 (1/1000) 127 127) ∈ writeMidiNotes [⟨-5, -6, 300, 999⟩] ∧
    (0 ≤ (NoteEvent.mk 0 (1/1000) 127 127).start_sec ∧
     (NoteEvent.mk 0 (1/1000) 127 127).start_sec + 1/1000 ≤
       (NoteEvent.mk 0 (1/1000) 127 127).end_sec ∧
     (NoteEvent.mk 0 (1/1000) 127 127).start_sec <
       (NoteEvent.mk 0 (1/1000) 127 127).end_sec ∧
     0 ≤ (NoteEvent.mk 0 (1/1000) 127 127).midi_pitch ∧
     (NoteEvent.mk 0 (1/1000) 127 127).midi_pitch ≤ 127 ∧
     1 ≤ (NoteEvent.mk 0 (1/1000) 127 127).velocity ∧
     (NoteEvent.mk 0 (1/1000) 127 127).velocity ≤ 127) :=
  ⟨by decide, writeMidi_sanitizes [⟨-5, -6, 300, 999⟩] _ (by decide)⟩

/-! ## Claim C7: the velocity override -/

/-- C7: every note in the pipeline's output has velocity
`clamp(settings.velocity, 1, 127)`, regardless of the input velocities. -/
theorem applyTweaks_velocity_override (raw : List NoteEvent) (s : Settings) :
    ∀ n ∈ applyTweaks raw s, n.velocity = velClamp s.velocity := by
  intro n hn
  simp only [applyTweaks, List.mem_insertionSort, List.mem_map] at hn
  obtain ⟨m, _, rfl⟩ := hn
  rfl

/-- Witness for C7: an input note with velocity 50 comes out with
velocity `clamp(96, 1, 127) = 96`. -/
theorem applyTweaks_velocity_override_witness :
    (NoteEvent.mk 0 1 60 96) ∈
      applyTweaks [⟨0, 1, 60, 50⟩] ⟨0, 0, 0, 0, 127, 0, 96, false, 120, "1/16", 60⟩ ∧
    (NoteEvent.mk 0 1 60 96).velocity =
      velClamp (Settings.mk 0 0 0 0 127 0 96 false 120 "1/16" 60).velocity :=
  ⟨by decide,
   applyTweaks_velocity_override [⟨0, 1, 60, 50⟩]
     ⟨0, 0, 0, 0, 127, 0, 96, false, 120, "1/16", 60⟩ _ (by decide)⟩

/-! ## Claim C9: seconds-to-ticks conversion and MIDI round-trip -/

/-- C9: `secondsToTicks(t, bpm, 480) = round(t / (60/bpm) * 480)` for any
valid tempo, and serializing the note (0 s, 1 s, pitch 60, velocity 90) at
120 BPM with 480 ticks per beat, then decoding the emitted delta-times back
to absolute ticks, recovers the original start tick 0 and end tick 960
within ±1 tick. -/
theorem secToTicks_roundtrip (t : Rat) (bpm : Int) (h : 1 ≤ bpm) :
    secToTicks bpm t = pyRound (t / (60 / (bpm : Rat)) * 480) ∧
    decodeTicks 0 (exportTrack [⟨0, 1, 60, 90⟩] 120) =
      [(true, 60, 0), (false, 60, 960)] ∧
    (secToTicks 120 0 - 0).natAbs ≤ 1 ∧ (secToTicks 120 1 - 960).natAbs ≤ 1 := by
  refine ⟨?_, by decide, by decide, by decide⟩
  unfold secToTicks
  rw [max_eq_right h]

/-- Witness for C9 at t = 1/2, bpm = 120. -/
theorem secToTicks_roundtrip_witness :
    (1 : Int) ≤ 120 ∧
    (secToTicks 120 (1/2) = pyRound ((1/2) / (60 / ((120 : Int) : Rat)) * 480) ∧
     decodeTicks 0 (exportTrack [⟨0, 1, 60, 90⟩] 120) =
       [(true, 60, 0), (false, 60, 960)] ∧
     (secToTicks 120 0 - 0).natAbs ≤ 1 ∧ (secToTicks 120 1 - 960).natAbs ≤ 1) :=
  ⟨by decide, secToTicks_roundtrip (1/2) 120 (by decide)⟩

/-! ## Claim C2: note-off before note-on at an identical tick -/

/-- C2 fails on the code: in the multi-track exporter the sort key
`(tick, not is_on)` puts note-ON first at an identical tick (two same-pitch
notes [0,1] and [1,2] at 120 BPM produce on@960 before off@960),
contradicting the code's own comment; and in the single-track exporter
events are sorted by seconds, so an on-event at 0.9998 s precedes an
off-event at 1.0004 s although both land on tick 960. -/
theorem midi_same_tick_order_bug :
    mtSorted [⟨0, 1, 60, 90⟩, ⟨1, 2, 60, 90⟩] 120 =
      [⟨0, true, 60, 90⟩, ⟨960, true, 60, 90⟩, ⟨960, false, 60, 0⟩,
       ⟨1920, false, 60, 0⟩] ∧
    ¬ OffBeforeOnAtSameTick (mtSorted [⟨0, 1, 60, 90⟩, ⟨1, 2, 60, 90⟩] 120) ∧
    decodeTicks 0 (exportTrack [⟨0, 5002/5000, 60, 90⟩, ⟨4999/5000, 2, 62, 90⟩] 120) =
      [(true, 60, 0), (true, 62, 960), (false, 60, 960), (false, 62, 1920)] :=
  ⟨by decide, by decide, by decide⟩

/-! ## Claim C8: empty preview input writes 0.1 s of silence -/

/-- C8: for an empty note list and a positive requested sample rate `sr`,
the preview synthesizer writes exactly `int(sr * 0.1)` zero-valued 16-bit
mono samples at frame rate `sr` (0.1 seconds of silence), without error. -/
theorem renderPreview_empty_silence (sr : Int) (h : 0 < sr) :
    (renderPreviewWavEmpty sr).1 = sr ∧
    (renderPreviewWavEmpty sr).2 =
      List.replicate (ratTrunc ((sr : Rat) * (1/10))).toNat 0 ∧
    (∀ x ∈ (renderPreviewWavEmpty sr).2, x = 0) ∧
    ((renderPreviewWavEmpty sr).2.length : Int) = sr / 10 := by
  have hsr : ¬ sr ≤ 0 := not_le.mpr h
  have heq : renderPreviewWavEmpty sr =
      (sr, List.replicate (ratTrunc ((sr : Rat) * (1/10))).toNat 0) := by
    unfold renderPreviewWavEmpty
    rw [if_neg hsr]
  have h10 : ((sr : Rat) * (1/10)) = ((sr : Int) : Rat) / ((10 : Nat) : Rat) := by
    push_cast
    rw [mul_one_div]
  have hpos : (0 : Rat) ≤ (sr : Rat) * (1/10) := by positivity
  have hfloor : ratTrunc ((sr : Rat) * (1/10)) = sr / 10 := by
    unfold ratTrunc
    rw [if_neg (not_lt.mpr hpos), h10, Rat.floor_intCast_div_natCast]
    norm_num
  refine ⟨by rw [heq], by rw [heq], ?_, ?_⟩
  · intro x hx
    rw [heq] at hx
    exact List.eq_of_mem_replicate hx
  · rw [heq]
    simp only [List.length_replicate, hfloor]
    omega

/-- Witness for C8 at sr = 44100: 4410 zero samples. -/
theorem renderPreview_empty_silence_witness :
    (0 : Int) < 44100 ∧
    ((renderPreviewWavEmpty 44100).1 = 44100 ∧
     (renderPreviewWavEmpty 44100).2 =
       List.replicate (ratTrunc (((44100 : Int) : Rat) * (1/10))).toNat 0 ∧
     (∀ x ∈ (renderPreviewWavEmpty 44100).2, x = 0) ∧
     ((renderPreviewWavEmpty 44100).2.length : Int) = (44100 : Int) / 10) :=
  ⟨by decide, renderPreview_empty_silence 44100 (by decide)⟩

/-! ## Claim C4: quantize endpoint swap and minimum-duration floor -/

/-- C4: with a positive effective strength the quantize stage maps each note
through `quantizeNote`; for every note, after both endpoints are pulled
toward the grid, the smaller quantized endpoint becomes the start (swap on
inversion), and whenever the resulting duration is below `min_note_ms/1000`
the end is forced to exactly `start + min_note_ms/1000` (for
`min_note_ms ≥ 1` the floor used by the code is exactly `min_note_ms/1000`);
in particular [0.48, 0.52] with a 0.5 s grid and 100% strength becomes
[0.5, 0.5 + 0.08] for `min_note_ms = 80`. -/
theorem quantize_swap_and_min_floor (s : Settings) (notes : List NoteEvent)
    (hstr : 0 < strength01 s) :
    applyQuantize notes s =
      notes.map (quantizeNote (gridSeconds s.quantize_bpm s.quantize_grid)
        (strength01 s) (minDurQ s)) ∧
    (∀ (grid strength : Rat) (m : Int) (n : NoteEvent),
      (quantizeNote grid strength (max (1/1000) ((m : Rat)/1000)) n).start_sec =
        min (quantizeTime n.start_sec grid strength)
            (quantizeTime n.end_sec grid strength) ∧
      (max (quantizeTime n.start_sec grid strength)
            (quantizeTime n.end_sec grid strength) -
         min (quantizeTime n.start_sec grid strength)
            (quantizeTime n.end_sec grid strength) < (m : Rat)/1000 →
        (quantizeNote grid strength (max (1/1000) ((m : Rat)/1000)) n).end_sec =
          (quantizeNote grid strength (max (1/1000) ((m : Rat)/1000)) n).start_sec +
            (m : Rat)/1000) ∧
      (1 ≤ m →
        (quantizeNote grid strength (max (1/1000) ((m : Rat)/1000)) n).end_sec =
          if max (quantizeTime n.start_sec grid strength)
                (quantizeTime n.end_sec grid strength) -
              min (quantizeTime n.start_sec grid strength)
                (quantizeTime n.end_sec grid strength) < (m : Rat)/1000
          then min (quantizeTime n.start_sec grid strength)
                (quantizeTime n.end_sec grid strength) + (m : Rat)/1000
          else max (quantizeTime n.start_sec grid strength)
                (quantizeTime n.end_sec grid strength))) ∧
    applyQuantize [⟨0.48, 0.52, 60, 90⟩]
        ⟨80, 10, 30, 21, 108, 10, 96, true, 120, "1/4", 100⟩ =
      [⟨0.5, 0.58, 60, 90⟩] := by
  refine ⟨?_, ?_, by decide⟩
  · unfold applyQuantize
    rw [if_neg (not_le.mpr hstr)]
  · intro grid strength m n
    set stq := quantizeTime n.start_sec grid strength with hstq
    set enq := quantizeTime n.end_sec grid strength with henq
    have hmin : (quantizeNote grid strength (max (1/1000) ((m : Rat)/1000)) n).start_sec =
        min stq enq := by
      simp only [quantizeNote, ← hstq, ← henq]
      by_cases hsw : enq < stq
      · rw [if_pos hsw, min_eq_right hsw.le]
      · rw [if_neg hsw, min_eq_left (not_lt.mp hsw)]
    have hend : (quantizeNote grid strength (max (1/1000) ((m : Rat)/1000)) n).end_sec =
        if max stq enq - min stq enq < max (1/1000) ((m : Rat)/1000)
        then min stq enq + max (1/1000) ((m : Rat)/1000)
        else max stq enq := by
      simp only [quantizeNote, ← hstq, ← henq]
      by_cases hsw : enq < stq
      · simp only [if_pos hsw, min_eq_right hsw.le, max_eq_left hsw.le]
      · simp only [if_neg hsw, min_eq_left (not_lt.mp hsw), max_eq_right (not_lt.mp hsw)]
    refine ⟨hmin, ?_, ?_⟩
    · intro hdur
      have hgap : (0 : Rat) ≤ max stq enq - min stq enq :=
        sub_nonneg.mpr (min_le_max)
      have hmq : (0 : Rat) < (m : Rat)/1000 := lt_of_le_of_lt hgap hdur
      have hm0 : (0 : Rat) < (m : Rat) := by linarith
      have hm1 : 1 ≤ m := by
        have h0 : 0 < m := by exact_mod_cast hm0
        omega
      have hflr : max (1/1000) ((m : Rat)/1000) = (m : Rat)/1000 := by
        apply max_eq_right
        have : (1 : Rat) ≤ (m : Rat) := by exact_mod_cast hm1
        linarith
      have hdur2 : max stq enq - min stq enq < max (1/1000) ((m : Rat)/1000) := by
        rw [hflr]; exact hdur
      rw [hend, if_pos hdur2, hmin, hflr]
    · intro hm1
      have hflr : max (1/1000) ((m : Rat)/1000) = (m : Rat)/1000 := by
        apply max_eq_right
        have : (1 : Rat) ≤ (m : Rat) := by exact_mod_cast hm1
        linarith
      rw [hend, hflr]

/-- Witness for C4 at the concrete quantize settings
(120 BPM, grid "1/4", strength 100, min_note_ms 80). -/
theorem quantize_swap_and_min_floor_witness :
    0 < strength01 ⟨80, 10, 30, 21, 108, 10, 96, true, 120, "1/4", 100⟩ ∧
    (applyQuantize [⟨0.48, 0.52, 60, 90⟩]
        ⟨80, 10, 30, 21, 108, 10, 96, true, 120, "1/4", 100⟩ =
      [⟨0.48, 0.52, 60, 90⟩].map
        (quantizeNote
          (gridSeconds (Settings.mk 80 10 30 21 108 10 96 true 120 "1/4" 100).quantize_bpm
            (Settings.mk 80 10 30 21 108 10 96 true 120 "1/4" 100).quantize_grid)
          (strength01 ⟨80, 10, 30, 21, 108, 10, 96, true, 120, "1/4", 100⟩)
          (minDurQ ⟨80, 10, 30, 21, 108, 10, 96, true, 120, "1/4", 100⟩))) :=
  ⟨by decide,
   (quantize_swap_and_min_floor ⟨80, 10, 30, 21, 108, 10, 96, true, 120, "1/4", 100⟩
     [⟨0.48, 0.52, 60, 90⟩] (by decide)).1⟩

/-! ## Claim C5: merge-gap pair rule -/

/-- C5: for two same-pitch notes processed in start order with a positive
gap, the second merges into the first exactly when
`next.start ≤ current.end + gap`, producing end `max` and velocity `max`;
in particular [0,1] and [1.02,2] merge into [0,2] at 50 ms and stay
separate at 10 ms. -/
theorem mergeGap_pair_rule (a b : NoteEvent) (gap : Rat) (hg : 0 < gap)
    (hp : a.midi_pitch = b.midi_pitch)
    (hord : a.start_sec < b.start_sec ∨
      (a.start_sec = b.start_sec ∧ a.end_sec ≤ b.end_sec)) :
    (b.start_sec ≤ a.end_sec + gap →
      mergeGap [a, b] gap =
        [⟨a.start_sec, max a.end_sec b.end_sec, a.midi_pitch,
          max a.velocity b.velocity⟩]) ∧
    (a.end_sec + gap < b.start_sec → mergeGap [a, b] gap = [a, b]) ∧
    mergeGap [⟨0, 1, 60, 90⟩, ⟨1.02, 2, 60, 80⟩] (50/1000) = [⟨0, 2, 60, 90⟩] ∧
    mergeGap [⟨0, 1, 60, 90⟩, ⟨1.02, 2, 60, 80⟩] (10/1000) =
      [⟨0, 1, 60, 90⟩, ⟨1.02, 2, 60, 80⟩] := by
  have hps : lePitchStartEnd a b := Or.inr ⟨hp, hord⟩
  have hsp : leStartPitch a b := by
    rcases hord with h | ⟨h, _⟩
    · exact Or.inl h
    · exact Or.inr ⟨h, le_of_eq hp⟩
  have hsort : List.insertionSort lePitchStartEnd [a, b] = [a, b] := by
    show List.orderedInsert lePitchStartEnd a [b] = [a, b]
    simp [List.orderedInsert, if_pos hps]
  have hsort2 : List.insertionSort leStartPitch [a, b] = [a, b] := by
    show List.orderedInsert leStartPitch a [b] = [a, b]
    simp [List.orderedInsert, if_pos hsp]
  refine ⟨?_, ?_, by decide, by decide⟩
  · intro hmerge
    unfold mergeGap
    rw [if_neg (not_le.mpr hg), hsort]
    show List.insertionSort leStartPitch
        (mergeScan gap a.start_sec a.end_sec a.midi_pitch a.velocity [b]) = _
    rw [mergeScan, if_pos ⟨hp.symm, hmerge⟩]
    rfl
  · intro hfar
    unfold mergeGap
    rw [if_neg (not_le.mpr hg), hsort]
    show List.insertionSort leStartPitch
        (mergeScan gap a.start_sec a.end_sec a.midi_pitch a.velocity [b]) = _
    rw [mergeScan, if_neg (by
      rintro ⟨-, hle⟩
      exact absurd hfar (not_lt.mpr hle))]
    show List.insertionSort leStartPitch [a, b] = [a, b]
    exact hsort2

/-- Witness for C5 at the spec's concrete pair ([0,1] and [1.02,2], 50 ms). -/
theorem mergeGap_pair_rule_witness :
    (0 : Rat) < 50/1000 ∧
    (NoteEvent.mk 0 1 60 90).midi_pitch = (NoteEvent.mk 1.02 2 60 80).midi_pitch ∧
    ((NoteEvent.mk 0 1 60 90).start_sec < (NoteEvent.mk 1.02 2 60 80).start_sec ∨
      ((NoteEvent.mk 0 1 60 90).start_sec = (NoteEvent.mk 1.02 2 60 80).start_sec ∧
       (NoteEvent.mk 0 1 60 90).end_sec ≤ (NoteEvent.mk 1.02 2 60 80).end_sec)) ∧
    ((NoteEvent.mk 1.02 2 60 80).start_sec ≤
        (NoteEvent.mk 0 1 60 90).end_sec + 50/1000 →
      mergeGap [⟨0, 1, 60, 90⟩, ⟨1.02, 2, 60, 80⟩] (50/1000) =
        [⟨(NoteEvent.mk 0 1 60 90).start_sec,
          max (NoteEvent.mk 0 1 60 90).end_sec (NoteEvent.mk 1.02 2 60 80).end_sec,
          (NoteEvent.mk 0 1 60 90).midi_pitch,
          max (NoteEvent.mk 0 1 60 90).velocity (NoteEvent.mk 1.02 2 60 80).velocity⟩]) :=
  ⟨by decide, by decide, by decide,
   (mergeGap_pair_rule ⟨0, 1, 60, 90⟩ ⟨1.02, 2, 60, 80⟩ (50/1000)
     (by decide) (by decide) (by decide)).1⟩

/-! ## Claim C6: polyphony-cap eviction policy

A second definition of the cap stage written from the claim's words
(process in (start asc, velocity desc) order; always admit the new note;
if the active set then exceeds the cap, remove the single active note with
the lowest velocity — stable first-found — from both the active set and the
kept output), to be compared with the source-derived `capPolyphony`. -/

/-- The lowest velocity value occurring in a list, seeded with `d`. -/
def minVelOf (l : List NoteEvent) (d : Int) : Int :=
  l.foldl (fun m x => min m x.velocity) d

/-- The lowest velocity among the notes of a nonempty list (0 for an empty one). -/
def lowestVel : List NoteEvent → Int
  | [] => 0
  | x :: xs => minVelOf xs x.velocity

/-- The first note in the list carrying the given velocity, if any. -/
def firstWithVel (v : Int) : List NoteEvent → Option NoteEvent
  | [] => none
  | x :: xs => if x.velocity = v then some x else firstWithVel v xs

/-- The claim's loop body: admit the new note, then if the active set
exceeds `maxp`, evict the first active note carrying the lowest velocity
from both the active set and the kept output. -/
def capStepSpec (maxp : Int) (acc : List NoteEvent × List NoteEvent) (n : NoteEvent) :
    List NoteEvent × List NoteEvent :=
  let active := pruneActive acc.1 n.start_sec ++ [n]
  let kept := acc.2 ++ [n]
  if maxp < (active.length : Int) then
    match firstWithVel (lowestVel active) active with
    | some w => (active.erase w, kept.erase w)
    | none => (active, kept)
  else (active, kept)

/-- The claim's description of the whole cap stage. -/
def capPolyphonySpec (notes : List NoteEvent) (maxp : Int) : List NoteEvent :=
  if maxp ≤ 0 then List.insertionSort leStartPitch notes
  else
    List.insertionSort leStartPitch
      (((List.insertionSort leCapKey notes).foldl (capStepSpec maxp) ([], [])).2)

theorem minVelOf_le_seed (l : List NoteEvent) : ∀ d, minVelOf l d ≤ d := by
  induction l with
  | nil => intro d; exact le_refl d
  | cons x xs ih =>
    intro d
    exact (ih (min d x.velocity)).trans (min_le_left _ _)

theorem minByVel_first (xs : List NoteEvent) :
    ∀ x, (minByVel x xs).velocity = minVelOf xs x.velocity ∧
      firstWithVel (minVelOf xs x.velocity) (x :: xs) = some (minByVel x xs) := by
  induction xs with
  | nil =>
    intro x
    refine ⟨rfl, ?_⟩
    simp [firstWithVel, minVelOf, minByVel]
  | cons y ys ih =>
    intro x
    by_cases h : y.velocity < x.velocity
    · have hmv : minVelOf (y :: ys) x.velocity = minVelOf ys y.velocity := by
        simp only [minVelOf, List.foldl_cons]
        rw [min_eq_right h.le]
      have hmb : minByVel x (y :: ys) = minByVel y ys := by
        simp only [minByVel, if_pos h]
      obtain ⟨ihv, ihf⟩ := ih y
      have hlt : minVelOf ys y.velocity < x.velocity :=
        lt_of_le_of_lt (minVelOf_le_seed ys y.velocity) h
      have hxne : ¬ (x.velocity = minVelOf ys y.velocity) := by
        intro hc
        exact absurd hc.symm (ne_of_lt hlt)
      refine ⟨by rw [hmb, hmv, ihv], ?_⟩
      rw [hmv, hmb]
      simp only [firstWithVel, if_neg hxne]
      exact ihf
    · have hxy : x.velocity ≤ y.velocity := not_lt.mp h
      have hmv : minVelOf (y :: ys) x.velocity = minVelOf ys x.velocity := by
        simp only [minVelOf, List.foldl_cons]
        rw [min_eq_left hxy]
      have hmb : minByVel x (y :: ys) = minByVel x ys := by
        simp only [minByVel, if_neg h]
      obtain ⟨ihv, ihf⟩ := ih x
      have hle : minVelOf ys x.velocity ≤ x.velocity := minVelOf_le_seed ys x.velocity
      refine ⟨by rw [hmb, hmv, ihv], ?_⟩
      rw [hmv, hmb]
      by_cases hx : x.velocity = minVelOf ys x.velocity
      · have hfx := ihf
        simp only [firstWithVel, if_pos hx] at hfx
        have hxmin : minByVel x ys = x := (Option.some.inj hfx).symm
        simp only [firstWithVel, if_pos hx, hxmin]
      · have hy : ¬ (y.velocity = minVelOf ys x.velocity) := by
          intro hc
          exact hx (le_antisymm (hc ▸ hxy) hle)
        simp only [firstWithVel, if_neg hx, if_neg hy]
        have hfr := ihf
        simp only [firstWithVel, if_neg hx] at hfr
        exact hfr

theorem capStep_eq_spec (maxp : Int) (acc : List NoteEvent × List NoteEvent)
    (n : NoteEvent) : capStep maxp acc n = capStepSpec maxp acc n := by
  unfold capStep capStepSpec
  cases hp : pruneActive acc.1 n.start_sec with
  | nil =>
    simp only [hp, List.nil_append]
    by_cases hc : maxp < (([n] : List NoteEvent).length : Int)
    · simp [if_pos hc, lowestVel, minVelOf, minByVel, firstWithVel]
    · simp only [if_neg hc]
  | cons x xs =>
    simp only [hp, List.cons_append]
    by_cases hc : maxp < ((x :: (xs ++ [n]) : List NoteEvent).length : Int)
    · simp only [if_pos hc, lowestVel]
      obtain ⟨-, hf⟩ := minByVel_first (xs ++ [n]) x
      rw [hf]
    · simp only [if_neg hc]

/-- C6: for every input and every cap, the source's `_cap_polyphony` is
exactly the claim's algorithm — process notes in (start asc, velocity desc)
order, always admit the new note, and when the active set exceeds the cap
evict the lowest-velocity active note (first-found) from both the active
set and the kept output; in particular, three simultaneous notes with
velocities [40, 90, 60] and cap 2 keep exactly the notes with velocities
90 and 60. -/
theorem capPolyphony_spec_and_example :
    (∀ (notes : List NoteEvent) (maxp : Int),
      capPolyphony notes maxp = capPolyphonySpec notes maxp) ∧
    capPolyphony [⟨0, 1, 60, 40⟩, ⟨0, 1, 64, 90⟩, ⟨0, 1, 67, 60⟩] 2 =
      [⟨0, 1, 64, 90⟩, ⟨0, 1, 67, 60⟩] := by
  constructor
  · intro notes maxp
    unfold capPolyphony capPolyphonySpec
    have : capStep maxp = capStepSpec maxp :=
      funext fun acc => funext fun n => capStep_eq_spec maxp acc n
    rw [this]
  · decide

/-! ## Claim C1: pipeline output invariants -/

theorem mergeScan_exists (gap : Rat) (l : List NoteEvent) :
    ∀ (st en : Rat) (p vel : Int), ∀ y ∈ mergeScan gap st en p vel l,
      (y.start_sec = st ∧ y.midi_pitch = p ∧ en ≤ y.end_sec) ∨
      (∃ x ∈ l, y.start_sec = x.start_sec ∧ y.midi_pitch = x.midi_pitch ∧
        x.end_sec ≤ y.end_sec) := by
  induction l with
  | nil =>
    intro st en p vel y hy
    simp only [mergeScan, List.mem_singleton] at hy
    subst hy
    exact Or.inl ⟨rfl, rfl, le_refl _⟩
  | cons nxt rest ih =>
    intro st en p vel y hy
    rw [mergeScan] at hy
    by_cases h : nxt.midi_pitch = p ∧ nxt.start_sec ≤ en + gap
    · rw [if_pos h] at hy
      rcases ih st (max en nxt.end_sec) p (max vel nxt.velocity) y hy with
        ⟨h1, h2, h3⟩ | ⟨x, hx, hh⟩
      · exact Or.inl ⟨h1, h2, (le_max_left _ _).trans h3⟩
      · exact Or.inr ⟨x, List.mem_cons_of_mem _ hx, hh⟩
    · rw [if_neg h] at hy
      rcases List.mem_cons.mp hy with rfl | hy2
      · exact Or.inl ⟨rfl, rfl, le_refl _⟩
      · rcases ih nxt.start_sec nxt.end_sec nxt.midi_pitch nxt.velocity y hy2 with
          ⟨h1, h2, h3⟩ | ⟨x, hx, hh⟩
        · exact Or.inr ⟨nxt, List.mem_cons_self _ _, h1, h2, h3⟩
        · exact Or.inr ⟨x, List.mem_cons_of_mem _ hx, hh⟩

theorem mergeGap_pres (notes : List NoteEvent) (gap : Rat) (pmin pmax : Int)
    (h : ∀ x ∈ notes,
      x.start_sec < x.end_sec ∧ pmin ≤ x.midi_pitch ∧ x.midi_pitch ≤ pmax) :
    ∀ y ∈ mergeGap notes gap,
      y.start_sec < y.end_sec ∧ pmin ≤ y.midi_pitch ∧ y.midi_pitch ≤ pmax := by
  intro y hy
  unfold mergeGap at hy
  by_cases hg : gap ≤ 0
  · rw [if_pos hg, List.mem_insertionSort] at hy
    exact h y hy
  · rw [if_neg hg, List.mem_insertionSort] at hy
    have hsor : ∀ x ∈ List.insertionSort lePitchStartEnd notes,
        x.start_sec < x.end_sec ∧ pmin ≤ x.midi_pitch ∧ x.midi_pitch ≤ pmax :=
      fun x hx => h x ((List.mem_insertionSort _).mp hx)
    cases hl : List.insertionSort lePitchStartEnd notes with
    | nil =>
      rw [hl] at hy
      simp [mergeLoop] at hy
    | cons cur rest =>
      rw [hl] at hy
      rw [hl] at hsor
      have hcur := hsor cur (List.mem_cons_self _ _)
      rcases mergeScan_exists gap rest cur.start_sec cur.end_sec cur.midi_pitch
          cur.velocity y hy with ⟨h1, h2, h3⟩ | ⟨x, hx, h1, h2, h3⟩
      · refine ⟨?_, h2 ▸ hcur.2.1, h2 ▸ hcur.2.2⟩
        rw [h1]
        exact lt_of_lt_of_le hcur.1 h3
      · have hxp := hsor x (List.mem_cons_of_mem _ hx)
        refine ⟨?_, h2 ▸ hxp.2.1, h2 ▸ hxp.2.2⟩
        rw [h1]
        exact lt_of_lt_of_le hxp.1 h3

theorem capStep_snd_subset (maxp : Int) (acc : List NoteEvent × List NoteEvent)
    (n : NoteEvent) : ∀ y ∈ (capStep maxp acc n).2, y ∈ acc.2 ++ [n] := by
  intro y hy
  simp only [capStep] at hy
  split at hy
  · exact List.mem_of_mem_erase hy
  · exact hy

theorem capFold_mem (maxp : Int) (l : List NoteEvent) :
    ∀ (acc : List NoteEvent × List NoteEvent),
      ∀ y ∈ (l.foldl (capStep maxp) acc).2, y ∈ acc.2 ∨ y ∈ l := by
  induction l with
  | nil =>
    intro acc y hy
    exact Or.inl hy
  | cons n rest ih =>
    intro acc y hy
    rw [List.foldl_cons] at hy
    rcases ih (capStep maxp acc n) y hy with h | h
    · rcases List.mem_append.mp (capStep_snd_subset maxp acc n y h) with h2 | h2
      · exact Or.inl h2
      · rw [List.mem_singleton] at h2
        exact Or.inr (h2 ▸ List.mem_cons_self _ _)
    · exact Or.inr (List.mem_cons_of_mem _ h)

theorem capPolyphony_subset (notes : List NoteEvent) (maxp : Int) :
    ∀ y ∈ capPolyphony notes maxp, y ∈ notes := by
  intro y hy
  unfold capPolyphony at hy
  by_cases hm : maxp ≤ 0
  · rw [if_pos hm, List.mem_insertionSort] at hy
    exact hy
  · rw [if_neg hm, List.mem_insertionSort] at hy
    rcases capFold_mem maxp (List.insertionSort leCapKey notes) ([], []) y hy with h | h
    · simp at h
    · exact (List.mem_insertionSort _).mp h

theorem quantizeNote_lt (grid strength minDur : Rat) (hmd : 0 < minDur)
    (n : NoteEvent) :
    (quantizeNote grid strength minDur n).start_sec <
      (quantizeNote grid strength minDur n).end_sec := by
  simp only [quantizeNote]
  by_cases hsw : quantizeTime n.end_sec grid strength < quantizeTime n.start_sec grid strength
  · simp only [if_pos hsw]
    by_cases hfl : quantizeTime n.start_sec grid strength -
        quantizeTime n.end_sec grid strength < minDur
    · rw [if_pos hfl]
      linarith
    · rw [if_neg hfl]
      push_neg at hfl
      linarith
  · simp only [if_neg hsw]
    push_neg at hsw
    by_cases hfl : quantizeTime n.end_sec grid strength -
        quantizeTime n.start_sec grid strength < minDur
    · rw [if_pos hfl]
      linarith
    · rw [if_neg hfl]
      push_neg at hfl
      linarith

theorem applyQuantize_pres (notes : List NoteEvent) (s : Settings) (pmin pmax : Int)
    (h : ∀ x ∈ notes,
      x.start_sec < x.end_sec ∧ pmin ≤ x.midi_pitch ∧ x.midi_pitch ≤ pmax) :
    ∀ y ∈ applyQuantize notes s,
      y.start_sec < y.end_sec ∧ pmin ≤ y.midi_pitch ∧ y.midi_pitch ≤ pmax := by
  intro y hy
  unfold applyQuantize at hy
  by_cases hs : strength01 s ≤ 0
  · rw [if_pos hs] at hy
    exact h y hy
  · rw [if_neg hs] at hy
    simp only [List.mem_map] at hy
    obtain ⟨m, hm, rfl⟩ := hy
    obtain ⟨-, hp1, hp2⟩ := h m hm
    have hmd : (0 : Rat) < minDurQ s :=
      lt_of_lt_of_le (by norm_num) (le_max_left _ _)
    exact ⟨quantizeNote_lt _ _ _ hmd m, hp1, hp2⟩

/-- C1 (amended): for every input and every Settings value, the pipeline
output is sorted by (start_sec, midi_pitch) ascending and every output note
satisfies `end_sec > start_sec` and `1 ≤ velocity ≤ 127`; the bound
`0 ≤ midi_pitch ≤ 127` additionally holds whenever the settings satisfy
`0 ≤ pitch_min` and `pitch_max ≤ 127`, as the UI enforces.  (Without that
proviso the pitch bound fails: the filter only restricts pitch to
[pitch_min, pitch_max] and nothing clamps it to the MIDI range.) -/
theorem applyTweaks_sorted_and_bounded (raw : List NoteEvent) (s : Settings) :
    List.Sorted leStartPitch (applyTweaks raw s) ∧
    (∀ n ∈ applyTweaks raw s,
      n.start_sec < n.end_sec ∧ 1 ≤ n.velocity ∧ n.velocity ≤ 127) ∧
    (0 ≤ s.pitch_min → s.pitch_max ≤ 127 →
      ∀ n ∈ applyTweaks raw s, 0 ≤ n.midi_pitch ∧ n.midi_pitch ≤ 127) := by
  have hfil : ∀ x ∈ raw.filter
      (keepNote s.pitch_min s.pitch_max s.min_velocity
        (max 0 ((s.min_note_ms : Rat) / 1000))),
      x.start_sec < x.end_sec ∧ s.pitch_min ≤ x.midi_pitch ∧
        x.midi_pitch ≤ s.pitch_max := by
    intro x hx
    rw [List.mem_filter] at hx
    have hk := hx.2
    unfold keepNote at hk
    simp only [Bool.and_eq_true, decide_eq_true_eq] at hk
    obtain ⟨⟨⟨⟨hA, hB⟩, hC⟩, -⟩, -⟩ := hk
    exact ⟨hC, hA, hB⟩
  have hmer := mergeGap_pres _ ((s.merge_gap_ms : Rat) / 1000) _ _ hfil
  have hcap : ∀ x ∈ capPolyphony
      (mergeGap (raw.filter (keepNote s.pitch_min s.pitch_max s.min_velocity
        (max 0 ((s.min_note_ms : Rat) / 1000)))) ((s.merge_gap_ms : Rat) / 1000))
      s.max_polyphony,
      x.start_sec < x.end_sec ∧ s.pitch_min ≤ x.midi_pitch ∧
        x.midi_pitch ≤ s.pitch_max :=
    fun x hx => hmer x (capPolyphony_subset _ _ x hx)
  have hq : ∀ x ∈ (if s.quantize then
        applyQuantize (capPolyphony
          (mergeGap (raw.filter (keepNote s.pitch_min s.pitch_max s.min_velocity
            (max 0 ((s.min_note_ms : Rat) / 1000)))) ((s.merge_gap_ms : Rat) / 1000))
          s.max_polyphony) s
      else capPolyphony
          (mergeGap (raw.filter (keepNote s.pitch_min s.pitch_max s.min_velocity
            (max 0 ((s.min_note_ms : Rat) / 1000)))) ((s.merge_gap_ms : Rat) / 1000))
          s.max_polyphony),
      x.start_sec < x.end_sec ∧ s.pitch_min ≤ x.midi_pitch ∧
        x.midi_pitch ≤ s.pitch_max := by
    by_cases hqz : s.quantize
    · rw [if_pos hqz]
      exact applyQuantize_pres _ s _ _ hcap
    · rw [if_neg hqz]
      exact hcap
  refine ⟨List.sorted_insertionSort leStartPitch _, ?_, ?_⟩
  · intro n hn
    simp only [applyTweaks, List.mem_insertionSort, List.mem_map] at hn
    obtain ⟨m, hm, rfl⟩ := hn
    obtain ⟨h1, -, -⟩ := hq m hm
    simp only [velClamp]
    exact ⟨h1, le_max_left _ _, max_le (by norm_num) (min_le_left _ _)⟩
  · intro hpmin hpmax n hn
    simp only [applyTweaks, List.mem_insertionSort, List.mem_map] at hn
    obtain ⟨m, hm, rfl⟩ := hn
    obtain ⟨-, h2, h3⟩ := hq m hm
    exact ⟨le_trans hpmin h2, le_trans h3 hpmax⟩

/-- C1's unamended pitch bound is false: with settings allowing
pitch_max = 200 (a Settings value), an input note of pitch 150 reaches the
output with pitch 150 > 127. -/
theorem applyTweaks_pitch_range_cex :
    ¬ (∀ n ∈ applyTweaks [⟨0, 1, 150, 90⟩]
          ⟨0, 0, 0, 0, 200, 0, 96, false, 120, "1/16", 60⟩,
        0 ≤ n.midi_pitch ∧ n.midi_pitch ≤ 127) := by
  intro h
  exact absurd (h ⟨0, 1, 150, 96⟩ (by decide)).2 (by decide)

/-- Witness for the amended C1 at default-like settings on one note,
discharging the pitch-range proviso of the conditional conjunct. -/
theorem applyTweaks_sorted_and_bounded_witness :
    List.Sorted leStartPitch
      (applyTweaks [⟨0, 1, 60, 90⟩] ⟨80, 10, 30, 21, 108, 10, 96, false, 120, "1/16", 60⟩) ∧
    (∀ n ∈ applyTweaks [⟨0, 1, 60, 90⟩] ⟨80, 10, 30, 21, 108, 10, 96, false, 120, "1/16", 60⟩,
       n.start_sec < n.end_sec ∧ 1 ≤ n.velocity ∧ n.velocity ≤ 127) ∧
    (0 : Int) ≤ (Settings.mk 80 10 30 21 108 10 96 false 120 "1/16" 60).pitch_min ∧
    (Settings.mk 80 10 30 21 108 10 96 false 120 "1/16" 60).pitch_max ≤ 127 ∧
    (∀ n ∈ applyTweaks [⟨0, 1, 60, 90⟩] ⟨80, 10, 30, 21, 108, 10, 96, false, 120, "1/16", 60⟩,
       0 ≤ n.midi_pitch ∧ n.midi_pitch ≤ 127) :=
  ⟨(applyTweaks_sorted_and_bounded [⟨0, 1, 60, 90⟩]
      ⟨80, 10, 30, 21, 108, 10, 96, false, 120, "1/16", 60⟩).1,
   (applyTweaks_sorted_and_bounded [⟨0, 1, 60, 90⟩]
      ⟨80, 10, 30, 21, 108, 10, 96, false, 120, "1/16", 60⟩).2.1,
   by decide, by decide,
   (applyTweaks_sorted_and_bounded [⟨0, 1, 60, 90⟩]
      ⟨80, 10, 30, 21, 108, 10, 96, false, 120, "1/16", 60⟩).2.2 (by decide) (by decide)⟩

/-! ## Claim C3: the pipeline is total — no stage raises

Variants of the stages with every Python runtime failure point explicit:
`min()` on an empty sequence, `list.remove` of an absent element, and the
divisions in `_grid_seconds` / `_quantize_time`.  Proving these always
return `Except.ok (…total version…)` shows `apply_tweaks` raises nothing. -/

/-- Checked division; `Except.error` models Python's ZeroDivisionError. -/
def divE (a b : Rat) : Except String Rat :=
  if b = 0 then Except.error "division by zero" else Except.ok (a / b)

/-- Python `min(..., key=...)` with its ValueError on an empty sequence. -/
def pyMinVel (l : List NoteEvent) : Except String NoteEvent :=
  match l with
  | [] => Except.error "min() arg is an empty sequence"
  | x :: xs => Except.ok (minByVel x xs)

/-- Python `list.remove` with its ValueError when the element is absent. -/
def pyRemove (l : List NoteEvent) (a : NoteEvent) : Except String (List NoteEvent) :=
  if a ∈ l then Except.ok (l.erase a) else Except.error "x not in list"

/-- `_cap_polyphony`'s loop body with the possible exceptions explicit
(`kept.remove` is wrapped in try/except in the source, so it stays total). -/
def capStepE (maxp : Int) (acc : List NoteEvent × List NoteEvent) (n : NoteEvent) :
    Except String (List NoteEvent × List NoteEvent) := do
  let active := pruneActive acc.1 n.start_sec ++ [n]
  let kept := acc.2 ++ [n]
  if maxp < (active.length : Int) then do
    let worst ← pyMinVel active
    let active2 ← pyRemove active worst
    pure (active2, kept.erase worst)
  else pure (active, kept)

/-- `_cap_polyphony` with explicit exceptions. -/
def capPolyphonyE (notes : List NoteEvent) (maxp : Int) :
    Except String (List NoteEvent) :=
  if maxp ≤ 0 then Except.ok (List.insertionSort leStartPitch notes)
  else do
    let res ← (List.insertionSort leCapKey notes).foldlM (capStepE maxp) ([], [])
    pure (List.insertionSort leStartPitch res.2)

/-- `_grid_seconds` with its two divisions checked. -/
def gridSecondsE (bpm : Int) (gridStr : String) : Except String Rat := do
  let quarter ← divE 60 ((max 1 bpm : Int) : Rat)
  let frac ← divE 4 ((max 1 (parseDenom gridStr) : Int) : Rat)
  pure (quarter * frac)

/-- `_quantize_time` with its division checked. -/
def quantizeTimeE (t grid strength : Rat) : Except String Rat :=
  if grid ≤ 0 then Except.ok t
  else do
    let q ← divE t grid
    pure (t + ((pyRound q : Rat) * grid - t) * strength)

/-- The `_apply_quantize` loop body with explicit exceptions. -/
def quantizeNoteE (grid strength minDur : Rat) (n : NoteEvent) :
    Except String NoteEvent := do
  let stq ← quantizeTimeE n.start_sec grid strength
  let enq ← quantizeTimeE n.end_sec grid strength
  let st2 := if enq < stq then enq else stq
  let en2 := if enq < stq then stq else enq
  let en3 := if en2 - st2 < minDur then st2 + minDur else en2
  pure ⟨st2, en3, n.midi_pitch, n.velocity⟩

/-- `_apply_quantize` with explicit exceptions (the grid is computed before
the strength guard, as in the source). -/
def applyQuantizeE (notes : List NoteEvent) (s : Settings) :
    Except String (List NoteEvent) := do
  let grid ← gridSecondsE s.quantize_bpm s.quantize_grid
  if strength01 s ≤ 0 then pure notes
  else notes.mapM (quantizeNoteE grid (strength01 s) (minDurQ s))

/-- `apply_tweaks` with explicit exceptions. -/
def applyTweaksE (raw : List NoteEvent) (s : Settings) :
    Except String (List NoteEvent) := do
  let minDur := max 0 ((s.min_note_ms : Rat) / 1000)
  let filtered := raw.filter (keepNote s.pitch_min s.pitch_max s.min_velocity minDur)
  let merged := mergeGap filtered ((s.merge_gap_ms : Rat) / 1000)
  let capped ← capPolyphonyE merged s.max_polyphony
  let quantized ← if s.quantize then applyQuantizeE capped s else pure capped
  pure (List.insertionSort leStartPitch
    (quantized.map (fun n => ⟨n.start_sec, n.end_sec, n.midi_pitch, velClamp s.velocity⟩)))

theorem ok_bind {α β : Type} (a : α) (f : α → Except String β) :
    (Except.ok a >>= f) = f a := rfl

theorem minByVel_mem (xs : List NoteEvent) : ∀ x, minByVel x xs ∈ x :: xs := by
  induction xs with
  | nil =>
    intro x
    simp [minByVel]
  | cons y ys ih =>
    intro x
    by_cases h : y.velocity < x.velocity
    · simp only [minByVel, if_pos h]
      rcases List.mem_cons.mp (ih y) with h2 | h2
      · rw [h2]
        exact List.mem_cons_of_mem _ (List.mem_cons_self _ _)
      · exact List.mem_cons_of_mem _ (List.mem_cons_of_mem _ h2)
    · simp only [minByVel, if_neg h]
      rcases List.mem_cons.mp (ih x) with h2 | h2
      · rw [h2]
        exact List.mem_cons_self _ _
      · exact List.mem_cons_of_mem _ (List.mem_cons_of_mem _ h2)

theorem capStepE_ok (maxp : Int) (acc : List NoteEvent × List NoteEvent)
    (n : NoteEvent) : capStepE maxp acc n = Except.ok (capStep maxp acc n) := by
  simp only [capStepE, capStep]
  by_cases hc : maxp < ((pruneActive acc.1 n.start_sec ++ [n]).length : Int)
  · simp only [if_pos hc]
    cases hp : pruneActive acc.1 n.start_sec with
    | nil =>
      simp only [hp, List.nil_append]
      have hm : (n : NoteEvent) ∈ [n] := List.mem_singleton_self n
      simp only [pyMinVel, pyRemove, minByVel, ok_bind, if_pos hm]
      rfl
    | cons x xs =>
      simp only [hp, List.cons_append]
      have hm : minByVel x (xs ++ [n]) ∈ x :: (xs ++ [n]) := minByVel_mem (xs ++ [n]) x
      simp only [pyMinVel, pyRemove, ok_bind, if_pos hm]
      rfl
  · simp only [if_neg hc]
    rfl

theorem foldlM_ok_of_ok {α β : Type} (f : β → α → Except String β) (g : β → α → β)
    (hf : ∀ b a, f b a = Except.ok (g b a)) :
    ∀ (l : List α) (b : β), l.foldlM f b = Except.ok (l.foldl g b) := by
  intro l
  induction l with
  | nil =>
    intro b
    rfl
  | cons a rest ih =>
    intro b
    rw [List.foldlM_cons, hf b a, ok_bind, ih, List.foldl_cons]

theorem mapM_ok_of_ok {α β : Type} (f : α → Except String β) (g : α → β)
    (hf : ∀ a, f a = Except.ok (g a)) :
    ∀ l : List α, l.mapM f = Except.ok (l.map g) := by
  intro l
  induction l with
  | nil =>
    rfl
  | cons a rest ih =>
    rw [List.mapM_cons, hf a, ih]
    rfl

theorem capPolyphonyE_ok (notes : List NoteEvent) (maxp : Int) :
    capPolyphonyE notes maxp = Except.ok (capPolyphony notes maxp) := by
  unfold capPolyphonyE capPolyphony
  by_cases hm : maxp ≤ 0
  · simp only [if_pos hm]
  · simp only [if_neg hm]
    rw [foldlM_ok_of_ok (capStepE maxp) (capStep maxp) (capStepE_ok maxp), ok_bind]
    rfl

theorem gridSecondsE_ok (bpm : Int) (g : String) :
    gridSecondsE bpm g = Except.ok (gridSeconds bpm g) := by
  have hb : ((max 1 bpm : Int) : Rat) ≠ 0 := by
    have h1 : (1 : Int) ≤ max 1 bpm := le_max_left _ _
    intro hc
    rw [Int.cast_eq_zero] at hc
    omega
  have hd : ((max 1 (parseDenom g) : Int) : Rat) ≠ 0 := by
    have h1 : (1 : Int) ≤ max 1 (parseDenom g) := le_max_left _ _
    intro hc
    rw [Int.cast_eq_zero] at hc
    omega
  unfold gridSecondsE gridSeconds divE
  rw [if_neg hb, ok_bind, if_neg hd, ok_bind]
  rfl

theorem quantizeTimeE_ok (t grid strength : Rat) :
    quantizeTimeE t grid strength = Except.ok (quantizeTime t grid strength) := by
  unfold quantizeTimeE quantizeTime divE
  by_cases hg : grid ≤ 0
  · rw [if_pos hg, if_pos hg]
  · have hne : grid ≠ 0 := fun hc => hg (le_of_eq hc)
    rw [if_neg hg, if_neg hg, if_neg hne, ok_bind]
    rfl

theorem quantizeNoteE_ok (grid strength minDur : Rat) (n : NoteEvent) :
    quantizeNoteE grid strength minDur n =
      Except.ok (quantizeNote grid strength minDur n) := by
  unfold quantizeNoteE quantizeNote
  rw [quantizeTimeE_ok, ok_bind, quantizeTimeE_ok, ok_bind]
  rfl

theorem applyQuantizeE_ok (notes : List NoteEvent) (s : Settings) :
    applyQuantizeE notes s = Except.ok (applyQuantize notes s) := by
  unfold applyQuantizeE applyQuantize
  rw [gridSecondsE_ok, ok_bind]
  by_cases hs : strength01 s ≤ 0
  · rw [if_pos hs, if_pos hs]
    rfl
  · rw [if_neg hs, if_neg hs]
    exact mapM_ok_of_ok _ _
      (quantizeNoteE_ok (gridSeconds s.quantize_bpm s.quantize_grid)
        (strength01 s) (minDurQ s)) notes

/-- C3: for every input note list and every Settings value — including the
degenerate `max_polyphony = 0`, `merge_gap_ms = 0` and
`quantize_strength = 0` — the pipeline with every Python failure point made
explicit returns `Except.ok` of the total pipeline's result: `apply_tweaks`
terminates normally and raises no exception. -/
theorem applyTweaksE_total (raw : List NoteEvent) (s : Settings) :
    applyTweaksE raw s = Except.ok (applyTweaks raw s) := by
  by_cases hq : s.quantize
  · simp only [applyTweaksE, applyTweaks, if_pos hq, capPolyphonyE_ok, ok_bind,
      applyQuantizeE_ok]
    rfl
  · simp only [applyTweaksE, applyTweaks, if_neg hq, capPolyphonyE_ok, ok_bind,
      pure_bind]
    rfl

end WaveNotes
